import Mathlib

set_option maxHeartbeats 1000000

/-
  Verification development for the pain-lsp Backend (src/src/lsp.rs).

  The language front-end (crate pain_compiler: parser, type checker, warning
  collector, built-in catalog, std hashing) is an external collaborator of the
  repository; it is modelled as an abstract `FrontEnd` record of total
  functions.  Every `std::panic::catch_unwind` boundary in lsp.rs is modelled
  by an explicit `Faults` oracle flag telling whether the wrapped computation
  faults at that boundary (the Lean translations of the pure in-repo helpers
  are total, so their own inner boundaries never fire).

  Machine integers: usize values are Nat; the `as u32` casts in the
  diagnostic converters are modelled with an explicit `% 2^32`.
  `text.len()` (bytes) is `String.utf8ByteSize`.  Cursor columns are treated
  as character indices (exact for single-byte content; a byte slice on a
  non-character boundary panics in Rust and is subsumed by the fault oracle).
-/

namespace PainLsp

/- ===== AST data model (usage of pain_compiler::ast in lsp.rs) ===== -/

/-- Source position, 1-based line/column (ast span endpoints). -/
structure SrcPos where
  line : Nat
  column : Nat

/-- Source span of an AST node: `span.start` / `span.end`. -/
structure SrcSpan where
  start : SrcPos
  end_ : SrcPos

/-- Error/warning span; lsp.rs reads it through `.line()` and `.column()`. -/
structure ESpan where
  line : Nat
  column : Nat

/-- The `Type` enum of pain_compiler::ast, as matched in `format_type_with_depth`.
    (`Type` is not a usable Lean name.)  Tensor dims are only ever rendered via
    the Rust `Debug` formatter, so we carry that rendering as a string. -/
inductive Ty where
  | int : Ty
  | str : Ty
  | float32 : Ty
  | float64 : Ty
  | bool : Ty
  | dynamic : Ty
  | list (inner : Ty) : Ty
  | array (inner : Ty) : Ty
  | map (k : Ty) (v : Ty) : Ty
  | tensor (inner : Ty) (dimsDebug : String) : Ty
  | named (name : String) : Ty

/-- Function attribute: lsp.rs uses `attr.name`, `attr.args.is_empty()`,
    `attr.args.len()`. -/
structure Attr where
  name : String
  args : List String

/-- Function parameter: `p.name`, `p.ty`. -/
structure Param where
  name : String
  ty : Ty

/-- Statements, as matched in `extract_variables_from_statements`.
    `otherS` stands for every constructor covered by the `_ => {}` arm
    (statements that bind no variable). -/
inductive Statement where
  | letS (name : String) : Statement
  | forS (var : String) (body : List Statement) : Statement
  | ifS (then_ : List Statement) (else_ : Option (List Statement)) : Statement
  | whileS (body : List Statement) : Statement
  | otherS : Statement

/-- Top-level function (pain_compiler::ast::Function, fields used by lsp.rs). -/
structure Function where
  name : String
  params : List Param
  return_type : Option Ty
  body : List Statement
  attrs : List Attr
  doc : Option String
  span : SrcSpan

/-- Top-level class (fields used by lsp.rs: name, methods, doc). -/
structure Class where
  name : String
  methods : List Function
  doc : Option String

/-- Top-level item. -/
inductive Item where
  | function (f : Function) : Item
  | classItem (c : Class) : Item

/-- A parsed program: ordered list of top-level items. -/
structure Program where
  items : List Item

/-- An entry of the built-in catalog (pain_compiler::stdlib). -/
structure StdlibFunction where
  name : String
  params : List (String × Ty)
  return_type : Ty
  description : String

/- ===== Front-end error types (usage in lsp.rs) ===== -/

/-- pain_compiler::error::ParseError: message and span. -/
structure ParseError where
  message : String
  span : ESpan

/-- pain_compiler::TypeError; lsp.rs only extracts the span of each variant. -/
inductive TypeError where
  | undefinedVariable (span : ESpan) : TypeError
  | typeMismatch (span : ESpan) : TypeError
  | cannotInferType (span : ESpan) : TypeError
  | invalidOperation (span : ESpan) : TypeError

/-- The span extracted from a type error by the match in
    `type_error_to_diagnostic`. -/
def TypeError.spanOf : TypeError → ESpan
  | .undefinedVariable s => s
  | .typeMismatch s => s
  | .cannotInferType s => s
  | .invalidOperation s => s

/-- pain_compiler::Warning, as matched in `warning_to_diagnostic`. -/
inductive Warning where
  | unusedVariable (name : String) (span : ESpan) : Warning
  | unusedFunction (name : String) (span : ESpan) : Warning
  | deadCode (span : ESpan) (reason : String) : Warning
  | unreachableCode (span : ESpan) : Warning

/-- The span extracted from a warning by the match in `warning_to_diagnostic`. -/
def Warning.spanOf : Warning → ESpan
  | .unusedVariable _ s => s
  | .unusedFunction _ s => s
  | .deadCode s _ => s
  | .unreachableCode s => s

/-- The message built by the match in `warning_to_diagnostic`. -/
def Warning.messageOf : Warning → String
  | .unusedVariable n _ => "unused variable `" ++ n ++ "`"
  | .unusedFunction n _ => "unused function `" ++ n ++ "`"
  | .deadCode _ r => "dead code: " ++ r
  | .unreachableCode _ => "unreachable code"

/- ===== Protocol data model (tower_lsp::lsp_types, fields used) ===== -/

/-- Protocol position (0-based, u32 fields). -/
structure Position where
  line : Nat
  character : Nat

/-- Protocol range. -/
structure Range where
  start : Position
  end_ : Position

inductive DiagnosticSeverity where
  | error : DiagnosticSeverity
  | warning : DiagnosticSeverity

/-- Protocol diagnostic (fields lsp.rs actually sets; the remaining fields are
    always None). -/
structure Diagnostic where
  range : Range
  severity : Option DiagnosticSeverity
  source : Option String
  message : String

inductive CompletionItemKind where
  | function : CompletionItemKind
  | classItem : CompletionItemKind
  | method : CompletionItemKind
  | var : CompletionItemKind
  | keyword : CompletionItemKind
deriving DecidableEq, BEq

/-- Protocol completion item (fields lsp.rs sets; the rest are defaulted). -/
structure CompletionItem where
  label : String
  kind : Option CompletionItemKind
  detail : Option String
  documentation : Option String

/-- Hover payload assembled by lsp.rs. -/
structure HoverInfo where
  signature : String
  doc : Option String

/- ===== Type context (built in check_document_internal, consumed opaquely) ===== -/

/-- TypeContext: lsp.rs only ever calls `add_function` / `add_class` on it;
    we record exactly those registrations. -/
structure TypeContext where
  functions : List (String × Function)
  classes : List (String × Class)

def TypeContext.new : TypeContext := ⟨[], []⟩

def TypeContext.add_function (ctx : TypeContext) (n : String) (f : Function) : TypeContext :=
  ⟨ctx.functions ++ [(n, f)], ctx.classes⟩

def TypeContext.add_class (ctx : TypeContext) (n : String) (c : Class) : TypeContext :=
  ⟨ctx.functions, ctx.classes ++ [(n, c)]⟩

/- ===== The external front-end, abstractly ===== -/

/-- The external collaborators of lsp.rs, as total functions:
    parse_with_recovery, type_check_program_with_context,
    WarningCollector::collect_warnings, ErrorFormatter (built from the text and
    the context, then `format_error`), the `{:?}` Debug rendering of a
    TypeError, get_stdlib_functions, and DefaultHasher-based text hashing
    (`hasher.finish().to_string()`). -/
structure FrontEnd where
  parseWithRecovery : String → Option Program × List ParseError
  typeCheck : Program → TypeContext → Except TypeError Unit
  collectWarnings : Program → TypeContext → List Warning
  formatError : String → TypeContext → TypeError → String
  debugTypeError : TypeError → String
  stdlib : List StdlibFunction
  hash : String → String

/-- One flag per `std::panic::catch_unwind` boundary in lsp.rs, telling whether
    the wrapped computation faults there. -/
structure Faults where
  completion_boundary : Bool
  get_completions_boundary : Bool
  check_document_boundary : Bool
  type_check_boundary : Bool
  warnings_boundary : Bool
  format_error_boundary : Bool
  hover_boundary : Bool

def noFaults : Faults := ⟨false, false, false, false, false, false, false⟩

/- ===== Backend state ===== -/

/-- Backend state: document store, size cap, parse cache (uri → (hash, AST)).
    The HashMaps are modelled as association lists with unique keys. -/
structure Backend where
  documents : List (String × String)
  max_document_size : Nat
  parsed_cache : List (String × (String × Program))

/-- Backend::new (the client handle is not modelled). -/
def Backend.new : Backend := ⟨[], 10 * 1024 * 1024, []⟩

/- ===== Association-list operations (HashMap insert / remove / get) ===== -/

def assocInsert {α : Type} : List (String × α) → String → α → List (String × α)
  | [], k, v => [(k, v)]
  | (k', v') :: rest, k, v =>
      if k' = k then (k, v) :: rest else (k', v') :: assocInsert rest k v

def assocRemove {α : Type} (l : List (String × α)) (k : String) : List (String × α) :=
  l.filter (fun p => !(p.1 == k))

/- ===== Small text helpers ===== -/

/-- usize → u32 cast. -/
def u32 (n : Nat) : Nat := n % 4294967296

/-- Splitting a character list at newline characters (kernel-evaluable model
    of splitting a Rust string at `\n`). -/
def split_newlines : List Char → List Char → List String
  | [], acc => [String.mk acc.reverse]
  | c :: rest, acc =>
      if c = '\n' then String.mk acc.reverse :: split_newlines rest []
      else split_newlines rest (c :: acc)

/-- Strips one trailing `\r` (the `\r\n` case of Rust line splitting). -/
def drop_trailing_cr (l : String) : String :=
  if l.data.getLast? = some '\r' then String.mk l.data.dropLast else l

/-- Rust `str::lines()`: split at `\n`, a final line ending is optional, and a
    trailing `\r` (from `\r\n`) is stripped from each line. -/
def rustLines (s : String) : List String :=
  let parts := split_newlines s.data []
  let parts := if parts.getLast? = some "" then parts.dropLast else parts
  parts.map drop_trailing_cr

/-- Rust `str::trim_end()`: drops trailing whitespace characters. -/
def rust_trim_end (s : String) : String :=
  String.mk (s.data.reverse.dropWhile Char.isWhitespace).reverse

/-- Rust `str::ends_with('.')` with a char pattern: the last character is `.`. -/
def ends_with_dot (s : String) : Bool := s.data.getLast? == some '.'

/-- Rust `msg.lines().next().unwrap_or(msg)`. -/
def firstLine (s : String) : String := (rustLines s).headD s

/-- HashSet::insert, determinized as insertion-ordered duplicate-free list. -/
def setInsert (s : List String) (x : String) : List String :=
  if x ∈ s then s else s ++ [x]

/- ===== Formatting (format_type / format_function_signature) ===== -/

def format_type_with_depth (ty : Ty) (depth : Nat) : String :=
  if depth > 10 then "..."
  else
    match ty with
    | .int => "int"
    | .str => "str"
    | .float32 => "float32"
    | .float64 => "float64"
    | .bool => "bool"
    | .dynamic => "dynamic"
    | .list inner => "list[" ++ format_type_with_depth inner (depth + 1) ++ "]"
    | .array inner => "array[" ++ format_type_with_depth inner (depth + 1) ++ "]"
    | .map k v =>
        "map[" ++ format_type_with_depth k (depth + 1) ++ ", "
          ++ format_type_with_depth v (depth + 1) ++ "]"
    | .tensor inner dims =>
        "Tensor[" ++ format_type_with_depth inner (depth + 1) ++ ", " ++ dims ++ "]"
    | .named n => n

def format_type (ty : Ty) : String := format_type_with_depth ty 0

def format_function_signature_internal (func : Function) : String :=
  let attrsStr := String.join (func.attrs.map (fun attr =>
    "@" ++ attr.name
      ++ (if attr.args.isEmpty then "" else "(" ++ toString attr.args.length ++ ")")
      ++ " "))
  let paramsStr := String.intercalate ", "
    (func.params.map (fun p => p.name ++ ": " ++ format_type p.ty))
  attrsStr ++ "fn " ++ func.name ++ "(" ++ paramsStr ++ ")"
    ++ (match func.return_type with
        | some retTy => " -> " ++ format_type retTy
        | none => "")

/-- format_function_signature wraps the internal formatter in catch_unwind;
    the Lean translation is total, so the boundary never fires. -/
def format_function_signature (func : Function) : String :=
  format_function_signature_internal func

/- ===== Diagnostic converters ===== -/

def parse_error_to_diagnostic (err : ParseError) : Diagnostic :=
  ⟨⟨⟨u32 (err.span.line - 1), u32 (err.span.column - 1)⟩,
    ⟨u32 (err.span.line - 1), u32 (err.span.column - 1 + 1)⟩⟩,
   some .error, some "pain", err.message⟩

def type_error_to_diagnostic (err : TypeError) (formatted_msg : String) : Diagnostic :=
  ⟨⟨⟨u32 (err.spanOf.line - 1), u32 (err.spanOf.column - 1)⟩,
    ⟨u32 (err.spanOf.line - 1), u32 (err.spanOf.column - 1 + 1)⟩⟩,
   some .error, some "pain", firstLine formatted_msg⟩

def warning_to_diagnostic (warning : Warning) (_text : String) : Diagnostic :=
  ⟨⟨⟨u32 (warning.spanOf.line - 1), u32 (warning.spanOf.column - 1)⟩,
    ⟨u32 (warning.spanOf.line - 1), u32 (warning.spanOf.column - 1 + 1)⟩⟩,
   some .warning, some "pain", warning.messageOf⟩

/- ===== Diagnostics pipeline ===== -/

def buildContext (program : Program) : TypeContext :=
  program.items.foldl
    (fun ctx item =>
      match item with
      | .function func => ctx.add_function func.name func
      | .classItem cl => ctx.add_class cl.name cl)
    TypeContext.new

def check_document_internal (fe : FrontEnd) (faults : Faults) (text : String) :
    List Diagnostic :=
  let parsed := fe.parseWithRecovery text
  let diagnostics := parsed.2.map parse_error_to_diagnostic
  match parsed.1 with
  | none => diagnostics
  | some program =>
      let ctx := buildContext program
      if faults.type_check_boundary then diagnostics
      else
        match fe.typeCheck program ctx with
        | .ok _ =>
            if faults.warnings_boundary then diagnostics
            else diagnostics
              ++ (fe.collectWarnings program ctx).map
                  (fun w => warning_to_diagnostic w text)
        | .error err =>
            let error_msg :=
              if faults.format_error_boundary then
                "Type error: " ++ fe.debugTypeError err
              else fe.formatError text ctx err
            diagnostics ++ [type_error_to_diagnostic err error_msg]

def check_document (fe : FrontEnd) (faults : Faults) (text : String) : List Diagnostic :=
  if faults.check_document_boundary then []
  else check_document_internal fe faults text

/-- on_change computes diagnostics (its own catch_unwind wraps check_document,
    which already catches everything, so a single flag models both) and
    publishes them. -/
def on_change (fe : FrontEnd) (faults : Faults) (text : String) : List Diagnostic :=
  check_document fe faults text

/- ===== Document store handlers ===== -/

/-- Outcome of a did_open / did_change notification: the new state, whether the
    oversized-document warning was logged, and the published diagnostics (none
    when the notification was rejected). -/
structure NotifyResult where
  backend : Backend
  warned : Bool
  published : Option (List Diagnostic)

def did_open (fe : FrontEnd) (faults : Faults) (b : Backend) (uri text : String) :
    NotifyResult :=
  if text.utf8ByteSize > b.max_document_size then ⟨b, true, none⟩
  else
    let docs := assocInsert b.documents uri text
    let cache := assocRemove b.parsed_cache uri
    ⟨⟨docs, b.max_document_size, cache⟩, false, some (on_change fe faults text)⟩

def did_change (fe : FrontEnd) (faults : Faults) (b : Backend) (uri : String)
    (content_changes : List String) : NotifyResult :=
  let text := content_changes.head?.getD ""
  if text.utf8ByteSize > b.max_document_size then ⟨b, true, none⟩
  else
    let docs := assocInsert b.documents uri text
    let cache := assocRemove b.parsed_cache uri
    ⟨⟨docs, b.max_document_size, cache⟩, false, some (on_change fe faults text)⟩

/- ===== Parse cache ===== -/

/-- Result of get_or_parse_program: the AST (if any), the updated state, and
    whether the front-end parser was invoked. -/
structure ParseOutcome where
  program : Option Program
  backend : Backend
  invokedFrontEnd : Bool

/-- The parse-and-cache tail of get_or_parse_program (the `// Parse and cache`
    block). -/
def parse_and_cache (fe : FrontEnd) (b : Backend) (uri text text_hash : String) :
    ParseOutcome :=
  match (fe.parseWithRecovery text).1 with
  | some program =>
      let cache := if b.parsed_cache.length > 50 then [] else b.parsed_cache
      ⟨some program,
       ⟨b.documents, b.max_document_size, assocInsert cache uri (text_hash, program)⟩,
       true⟩
  | none => ⟨none, b, true⟩

def get_or_parse_program (fe : FrontEnd) (b : Backend) (uri text : String) :
    ParseOutcome :=
  let text_hash := fe.hash text
  match List.lookup uri b.parsed_cache with
  | some (cached_hash, cached_program) =>
      if cached_hash = text_hash then ⟨some cached_program, b, false⟩
      else parse_and_cache fe b uri text text_hash
  | none => parse_and_cache fe b uri text text_hash

/- ===== Completion engine ===== -/

def get_keyword_completions : List CompletionItem :=
  [⟨"fn", some .keyword, some "Function definition", none⟩,
   ⟨"let", some .keyword, some "Immutable variable", none⟩,
   ⟨"var", some .keyword, some "Mutable variable", none⟩,
   ⟨"if", some .keyword, some "Conditional statement", none⟩,
   ⟨"else", some .keyword, some "Else branch", none⟩,
   ⟨"for", some .keyword, some "For loop", none⟩,
   ⟨"while", some .keyword, some "While loop", none⟩,
   ⟨"break", some .keyword, some "Break out of loop", none⟩,
   ⟨"continue", some .keyword, some "Continue to next loop iteration", none⟩,
   ⟨"return", some .keyword, some "Return from function", none⟩]

def print_completion_item : CompletionItem :=
  ⟨"print", some .function, some "print(value: dynamic) -> void", none⟩

def get_basic_completions : List CompletionItem :=
  get_keyword_completions ++ [print_completion_item]

/-- `lines[line]` access guarded by `line < lines.len()`. -/
def line_at (text : String) (line : Nat) : Option String :=
  (rustLines text).get? line

/-- Text of the current line up to the cursor column (`&current_line[..column]`
    when `column <= current_line.len()`, else the whole line). -/
def text_before_cursor (current_line : String) (column : Nat) : String :=
  if column ≤ current_line.length then String.mk (current_line.data.take column)
  else current_line

/-- The per-item detail of a user function/method: full signature for the
    first 50 (max_detailed_items), bare `fn name` afterwards. -/
def detail_for (detailed_count : Nat) (func : Function) : String :=
  if detailed_count < 50 then format_function_signature func else "fn " ++ func.name

/-- detailed_count evolution: `detailed_count += 1` inside `if detailed_count < 50`. -/
def next_detailed_count (detailed_count : Nat) : Nat :=
  if detailed_count < 50 then detailed_count + 1 else detailed_count

/-- Accumulator of the user-item loop in get_completions_internal. -/
structure UserFoldState where
  items : List CompletionItem
  function_names : List String
  detailed_count : Nat

/-- The inner `for method in &class.methods` loop. -/
def methods_loop : List Function → UserFoldState → String → UserFoldState
  | [], st, _ => st
  | method :: rest, st, class_name =>
      let names := setInsert st.function_names method.name
      let detail := detail_for st.detailed_count method
      let item : CompletionItem :=
        ⟨class_name ++ "." ++ method.name, some .method, some detail, method.doc⟩
      methods_loop rest ⟨st.items ++ [item], names, next_detailed_count st.detailed_count⟩
        class_name

/-- The `for item in &program.items` loop. -/
def user_items_loop : List Item → UserFoldState → UserFoldState
  | [], st => st
  | Item.function func :: rest, st =>
      let names := setInsert st.function_names func.name
      let detail := detail_for st.detailed_count func
      let item : CompletionItem := ⟨func.name, some .function, some detail, func.doc⟩
      user_items_loop rest
        ⟨st.items ++ [item], names, next_detailed_count st.detailed_count⟩
  | Item.classItem cl :: rest, st =>
      let classItem : CompletionItem :=
        ⟨cl.name, some .classItem, some ("class " ++ cl.name), cl.doc⟩
      let st' : UserFoldState := ⟨st.items ++ [classItem], st.function_names, st.detailed_count⟩
      user_items_loop rest (methods_loop cl.methods st' cl.name)

/- Variable extraction (extract_variables_in_scope and the statement walker). -/

def extract_variables_from_statements : List Statement → List String → List String
  | [], vars => vars
  | Statement.letS name :: rest, vars =>
      extract_variables_from_statements rest (setInsert vars name)
  | Statement.forS v body :: rest, vars =>
      extract_variables_from_statements rest
        (extract_variables_from_statements body (setInsert vars v))
  | Statement.ifS then_ (some else_) :: rest, vars =>
      extract_variables_from_statements rest
        (extract_variables_from_statements else_
          (extract_variables_from_statements then_ vars))
  | Statement.ifS then_ none :: rest, vars =>
      extract_variables_from_statements rest
        (extract_variables_from_statements then_ vars)
  | Statement.whileS body :: rest, vars =>
      extract_variables_from_statements rest
        (extract_variables_from_statements body vars)
  | Statement.otherS :: rest, vars =>
      extract_variables_from_statements rest vars

/-- Parameters of the enclosing function, then its bound names. -/
def collect_function_variables (func : Function) : List String :=
  let vars := func.params.foldl (fun acc p => setInsert acc p.name) []
  extract_variables_from_statements func.body vars

def find_scope_loop (line : Nat) : List Item → Option (List String)
  | [] => none
  | Item.function func :: rest =>
      if func.span.start.line ≤ line ∧ line ≤ func.span.end_.line then
        some (collect_function_variables func)
      else find_scope_loop line rest
  | Item.classItem _ :: rest => find_scope_loop line rest

def extract_variables_in_scope (program : Program) (line : Nat) (_column : Nat) :
    Option (List String) :=
  find_scope_loop line program.items

/-- The `for var_name in vars` loop (variables not shadowed by functions). -/
def var_completion_items (vars function_names : List String) : List CompletionItem :=
  (vars.filter (fun v => !(function_names.contains v))).map
    (fun v => ⟨v, some .var, some "Variable", none⟩)

/- Stdlib completion stage. -/

def format_stdlib_signature (f : StdlibFunction) : String :=
  f.name ++ "("
    ++ String.intercalate ", " (f.params.map (fun p => p.1 ++ ": " ++ format_type p.2))
    ++ ") -> " ++ format_type f.return_type

/-- The item pushed for a stdlib function when the accumulated list has
    `len` items: full signature while `len < 200`, else `name()`. -/
def mk_stdlib_item (f : StdlibFunction) (len : Nat) : CompletionItem :=
  ⟨f.name, some .function,
   some (if len < 200 then format_stdlib_signature f else f.name ++ "()"),
   some f.description⟩

/-- The `for stdlib_func in stdlib_funcs.iter().take(100)` loop. -/
def stdlib_loop : List StdlibFunction → List String → List CompletionItem →
    List CompletionItem
  | [], _, items => items
  | f :: rest, function_names, items =>
      if f.name ∈ function_names then stdlib_loop rest function_names items
      else stdlib_loop rest function_names (items ++ [mk_stdlib_item f items.length])

def get_completions_internal (fe : FrontEnd) (program : Program) (text : String)
    (position : Position) : List CompletionItem :=
  let line := position.line
  let column := position.character
  match line_at text line with
  | none => get_basic_completions
  | some current_line =>
      let is_member_access :=
        ends_with_dot (rust_trim_end (text_before_cursor current_line column))
      let st := user_items_loop program.items ⟨[], [], 0⟩
      let items := st.items
        ++ (match extract_variables_in_scope program (line + 1) (column + 1) with
            | some vars => var_completion_items vars st.function_names
            | none => [])
      let items := stdlib_loop (fe.stdlib.take 100) st.function_names items
      if is_member_access then items else items ++ get_keyword_completions

/-- get_completions: catch_unwind boundary around get_completions_internal. -/
def get_completions (fe : FrontEnd) (faults : Faults) (program : Program)
    (text : String) (position : Position) : List CompletionItem :=
  if faults.get_completions_boundary then get_basic_completions
  else get_completions_internal fe program text position

/- ===== Request handlers ===== -/

/-- Reply of the completion handler: the jsonrpc result (always Ok in the
    source), the state after the request, and whether the front-end parser ran. -/
structure CompletionReply where
  result : Except Unit (List CompletionItem)
  backend : Backend
  invokedFrontEnd : Bool

def completion (fe : FrontEnd) (faults : Faults) (b : Backend) (uri : String)
    (position : Position) : CompletionReply :=
  match List.lookup uri b.documents with
  | some text =>
      let outcome := get_or_parse_program fe b uri text
      match outcome.program with
      | some program =>
          let items :=
            if faults.completion_boundary then get_basic_completions
            else get_completions fe faults program text position
          ⟨Except.ok items, outcome.backend, outcome.invokedFrontEnd⟩
      | none =>
          ⟨Except.ok get_basic_completions, outcome.backend, outcome.invokedFrontEnd⟩
  | none => ⟨Except.ok get_basic_completions, b, false⟩

/- Hover engine. -/

def find_function_loop (line : Nat) : List Item → Option HoverInfo
  | [] => none
  | Item.classItem _ :: rest => find_function_loop line rest
  | Item.function func :: rest =>
      let func_line := func.span.start.line
      if line = func_line ∨ line = func_line + 1 then
        some ⟨format_function_signature func, func.doc⟩
      else find_function_loop line rest

def find_function_at_position (program : Program) (line : Nat) (_column : Nat) :
    Option HoverInfo :=
  find_function_loop line program.items

/-- Reply of the hover handler: result (always Ok in the source), the state
    after the request (hover never mutates it), and whether the front-end
    parser ran. -/
structure HoverReply where
  result : Except Unit (Option (List String))
  backend : Backend
  invokedFrontEnd : Bool

def hover (fe : FrontEnd) (faults : Faults) (b : Backend) (uri : String)
    (position : Position) : HoverReply :=
  match List.lookup uri b.documents with
  | none => ⟨Except.ok none, b, false⟩
  | some text =>
      match (fe.parseWithRecovery text).1 with
      | none => ⟨Except.ok none, b, true⟩
      | some program =>
          if faults.hover_boundary then ⟨Except.ok none, b, true⟩
          else
            match find_function_at_position program (position.line + 1)
                (position.character + 1) with
            | none => ⟨Except.ok none, b, true⟩
            | some info =>
                let contents := [info.signature]
                  ++ (match info.doc with
                      | some d => ["---\n" ++ d]
                      | none => [])
                ⟨Except.ok (some contents), b, true⟩

/- ===== Concrete fixtures for witnesses and counterexamples ===== -/

def emptyProgram : Program := ⟨[]⟩

/-- A concrete front-end: parses every text to the empty program, finds no
    type errors and no warnings, has an empty catalog, constant fingerprint. -/
def sampleFrontEnd : FrontEnd :=
  ⟨fun _ => (some emptyProgram, []),
   fun _ _ => Except.ok (),
   fun _ _ => [],
   fun _ _ _ => "",
   fun _ => "",
   [],
   fun _ => "h"⟩

def sampleStdlibPrint : StdlibFunction :=
  ⟨"print", [("value", Ty.dynamic)], Ty.dynamic, "Prints a value"⟩

/-- Same front-end with a one-entry built-in catalog. -/
def sampleFrontEndStd : FrontEnd :=
  ⟨fun _ => (some emptyProgram, []),
   fun _ _ => Except.ok (),
   fun _ _ => [],
   fun _ _ _ => "",
   fun _ => "",
   [sampleStdlibPrint],
   fun _ => "h"⟩

/-- The AST produced by the front-end for
    "fn add(a: int, b: int) -> int:\n    return a + b\n". -/
def addProgram : Program :=
  ⟨[Item.function
      ⟨"add", [⟨"a", Ty.int⟩, ⟨"b", Ty.int⟩], some Ty.int, [Statement.otherS],
       [], none, ⟨⟨1, 1⟩, ⟨2, 15⟩⟩⟩]⟩

def sampleTypeError : TypeError := TypeError.typeMismatch ⟨1, 1⟩

/-- Front-end whose type checker always reports sampleTypeError, with a
    two-line formatted explanation. -/
def sampleFrontEndErr : FrontEnd :=
  ⟨fun _ => (some emptyProgram, []),
   fun _ _ => Except.error sampleTypeError,
   fun _ _ => [],
   fun _ _ _ => "first line\nsecond line",
   fun _ => "",
   [],
   fun _ => "h"⟩

/-- The function carried by a top-level item, if it is one (spec-side view of
    the `let Item::Function(func) = item else continue` skip). -/
def item_function_opt : Item → Option Function
  | Item.function f => some f
  | Item.classItem _ => none

/-- The user functions and methods of a program in encounter order of the
    user-item loop (spec-side). -/
def fns_and_methods : List Item → List Function
  | [] => []
  | Item.function f :: rest => f :: fns_and_methods rest
  | Item.classItem cl :: rest => cl.methods ++ fns_and_methods rest

/-- The detail strings the user-item loop assigns to successive
    functions/methods, starting from a given detailed_count (spec-side). -/
def detail_spec_from : Nat → List Function → List String
  | _, [] => []
  | c, f :: rest => detail_for c f :: detail_spec_from (next_detailed_count c) rest

/-- detailed_count after processing n functions/methods. -/
def count_after : Nat → Nat → Nat
  | c, 0 => c
  | c, n + 1 => count_after (next_detailed_count c) n

/-- The details of the function/method completion items of a list, in order. -/
def fn_method_details (items : List CompletionItem) : List String :=
  items.filterMap (fun it =>
    match it.kind with
    | some CompletionItemKind.function => it.detail
    | some CompletionItemKind.method => it.detail
    | _ => none)

/-- Whether a completion item is a keyword item. -/
def is_keyword_completion (it : CompletionItem) : Bool :=
  it.kind == some CompletionItemKind.keyword

/-- A minimal user function for witnesses. -/
def sampleFn : Function := ⟨"f", [], none, [], [], none, ⟨⟨1, 1⟩, ⟨1, 1⟩⟩⟩

/-- 51 copies of sampleFn: one more than the detailed-formatting cutoff. -/
def manyFns : List Item := List.replicate 51 (Item.function sampleFn)

/- ===== Helper lemmas ===== -/

theorem u32_small {n : Nat} (h : n < 4294967296) : u32 n = n := Nat.mod_eq_of_lt h

theorem assocInsert_lookup {α : Type} (l : List (String × α)) (k : String) (v : α) :
    List.lookup k (assocInsert l k v) = some v := by
  induction l with
  | nil => simp [assocInsert, List.lookup]
  | cons p rest ih =>
      obtain ⟨k', v'⟩ := p
      by_cases h : k' = k
      · simp [assocInsert, h, List.lookup]
      · have hk : (k == k') = false := beq_eq_false_iff_ne.mpr (fun hk => h hk.symm)
        simp only [assocInsert, if_neg h, List.lookup, hk]
        exact ih

theorem assocRemove_lookup {α : Type} (l : List (String × α)) (k : String) :
    List.lookup k (assocRemove l k) = none := by
  induction l with
  | nil => rfl
  | cons p rest ih =>
      obtain ⟨k', v'⟩ := p
      by_cases h : k' = k
      · subst h
        simpa [assocRemove, List.filter_cons] using ih
      · have hk : (k == k') = false := beq_eq_false_iff_ne.mpr (fun hk => h hk.symm)
        have hk' : (k' == k) = false := beq_eq_false_iff_ne.mpr h
        simp only [assocRemove, List.filter_cons] at ih ⊢
        simp [hk', List.lookup, hk, ih]

/- ===== C4: 1-based front-end spans become 0-based one-character ranges ===== -/

/-- C4: a parse error, type error, or warning whose front-end span is the
    1-based pair (line, col) is emitted with the 0-based one-character range
    (line-1, col-1)..(line-1, col).  The bounds keep the value inside the u32
    protocol fields (spans of a size-capped document always satisfy them). -/
theorem c4_span_translation :
    (∀ e : ParseError, 1 ≤ e.span.line → e.span.line ≤ 4294967296 →
        1 ≤ e.span.column → e.span.column < 4294967296 →
        (parse_error_to_diagnostic e).range =
          ⟨⟨e.span.line - 1, e.span.column - 1⟩, ⟨e.span.line - 1, e.span.column⟩⟩) ∧
    (∀ (err : TypeError) (msg : String), 1 ≤ err.spanOf.line → err.spanOf.line ≤ 4294967296 →
        1 ≤ err.spanOf.column → err.spanOf.column < 4294967296 →
        (type_error_to_diagnostic err msg).range =
          ⟨⟨err.spanOf.line - 1, err.spanOf.column - 1⟩,
           ⟨err.spanOf.line - 1, err.spanOf.column⟩⟩) ∧
    (∀ (w : Warning) (text : String), 1 ≤ w.spanOf.line → w.spanOf.line ≤ 4294967296 →
        1 ≤ w.spanOf.column → w.spanOf.column < 4294967296 →
        (warning_to_diagnostic w text).range =
          ⟨⟨w.spanOf.line - 1, w.spanOf.column - 1⟩,
           ⟨w.spanOf.line - 1, w.spanOf.column⟩⟩) := by
  refine ⟨fun e h1 h2 h3 h4 => ?_, fun err msg h1 h2 h3 h4 => ?_,
    fun w text h1 h2 h3 h4 => ?_⟩
  · have e1 : u32 (e.span.line - 1) = e.span.line - 1 := u32_small (by omega)
    have e2 : u32 (e.span.column - 1) = e.span.column - 1 := u32_small (by omega)
    have e3 : u32 (e.span.column - 1 + 1) = e.span.column := by
      have h : e.span.column - 1 + 1 = e.span.column := by omega
      rw [h]; exact u32_small h4
    simp [parse_error_to_diagnostic, e1, e2, e3]
  · have e1 : u32 (err.spanOf.line - 1) = err.spanOf.line - 1 := u32_small (by omega)
    have e2 : u32 (err.spanOf.column - 1) = err.spanOf.column - 1 := u32_small (by omega)
    have e3 : u32 (err.spanOf.column - 1 + 1) = err.spanOf.column := by
      have h : err.spanOf.column - 1 + 1 = err.spanOf.column := by omega
      rw [h]; exact u32_small h4
    simp [type_error_to_diagnostic, e1, e2, e3]
  · have e1 : u32 (w.spanOf.line - 1) = w.spanOf.line - 1 := u32_small (by omega)
    have e2 : u32 (w.spanOf.column - 1) = w.spanOf.column - 1 := u32_small (by omega)
    have e3 : u32 (w.spanOf.column - 1 + 1) = w.spanOf.column := by
      have h : w.spanOf.column - 1 + 1 = w.spanOf.column := by omega
      rw [h]; exact u32_small h4
    simp [warning_to_diagnostic, e1, e2, e3]

/-- C4 witness: a front-end error at (line=3, col=5) maps to protocol range
    (2,4)-(2,5), for all three converters. -/
theorem c4_span_translation_witness :
    ((1 : Nat) ≤ 3 ∧ (3 : Nat) ≤ 4294967296 ∧ (1 : Nat) ≤ 5 ∧ (5 : Nat) < 4294967296) ∧
    (parse_error_to_diagnostic ⟨"m", ⟨3, 5⟩⟩).range = ⟨⟨2, 4⟩, ⟨2, 5⟩⟩ ∧
    (type_error_to_diagnostic (TypeError.undefinedVariable ⟨3, 5⟩) "msg").range =
      ⟨⟨2, 4⟩, ⟨2, 5⟩⟩ ∧
    (warning_to_diagnostic (Warning.unreachableCode ⟨3, 5⟩) "text").range =
      ⟨⟨2, 4⟩, ⟨2, 5⟩⟩ :=
  ⟨by decide,
   c4_span_translation.1 ⟨"m", ⟨3, 5⟩⟩ (by decide) (by decide) (by decide) (by decide),
   c4_span_translation.2.1 (TypeError.undefinedVariable ⟨3, 5⟩) "msg"
     (by decide) (by decide) (by decide) (by decide),
   c4_span_translation.2.2 (Warning.unreachableCode ⟨3, 5⟩) "text"
     (by decide) (by decide) (by decide) (by decide)⟩

/- ===== C2: oversized documents are rejected wholesale ===== -/

/-- C2: when the (effective) text exceeds max_document_size, did_open and
    did_change are no-ops on the Backend state apart from the logged warning:
    the prior state is kept unchanged and nothing is published; the default
    maximum is 10 MiB. -/
theorem c2_oversized_noop (fe : FrontEnd) (faults : Faults) (b : Backend)
    (uri text : String) (changes : List String)
    (hopen : text.utf8ByteSize > b.max_document_size)
    (hchange : (changes.head?.getD "").utf8ByteSize > b.max_document_size) :
    did_open fe faults b uri text = ⟨b, true, none⟩ ∧
    did_change fe faults b uri changes = ⟨b, true, none⟩ ∧
    Backend.new.max_document_size = 10 * 1024 * 1024 := by
  refine ⟨?_, ?_, rfl⟩
  · simp [did_open, hopen]
  · simp [did_change, hchange]

/-- C2 witness: a 4-byte document against a 3-byte cap leaves the prior entry
    for the identity untouched. -/
theorem c2_oversized_noop_witness :
    (("abcd".utf8ByteSize > (Backend.mk [("u", "old")] 3 []).max_document_size) ∧
     ((["abcd"].head?.getD "").utf8ByteSize > (Backend.mk [("u", "old")] 3 []).max_document_size)) ∧
    (did_open sampleFrontEnd noFaults (Backend.mk [("u", "old")] 3 []) "u" "abcd"
        = ⟨Backend.mk [("u", "old")] 3 [], true, none⟩ ∧
     did_change sampleFrontEnd noFaults (Backend.mk [("u", "old")] 3 []) "u" ["abcd"]
        = ⟨Backend.mk [("u", "old")] 3 [], true, none⟩ ∧
     Backend.new.max_document_size = 10 * 1024 * 1024) :=
  ⟨⟨by decide, by decide⟩,
   c2_oversized_noop sampleFrontEnd noFaults (Backend.mk [("u", "old")] 3 []) "u"
     "abcd" ["abcd"] (by decide) (by decide)⟩

/- ===== C10: empty content-change list is treated as the empty text ===== -/

/-- C10: a change notification with no content changes stores "" for the
    identity, invalidates its parse-cache entry, and publishes the diagnostics
    computed for the empty text. -/
theorem c10_empty_change_is_empty_text (fe : FrontEnd) (faults : Faults)
    (b : Backend) (uri : String) :
    List.lookup uri (did_change fe faults b uri []).backend.documents = some "" ∧
    List.lookup uri (did_change fe faults b uri []).backend.parsed_cache = none ∧
    (did_change fe faults b uri []).published = some (check_document fe faults "") := by
  have h0 : ("" : String).utf8ByteSize = 0 := rfl
  have hno : ¬ (("" : String).utf8ByteSize > b.max_document_size) := by
    rw [h0]; omega
  refine ⟨?_, ?_, ?_⟩
  · simp only [did_change, List.head?, Option.getD, if_neg hno]
    exact assocInsert_lookup b.documents uri ""
  · simp only [did_change, List.head?, Option.getD, if_neg hno]
    exact assocRemove_lookup b.parsed_cache uri
  · simp only [did_change, List.head?, Option.getD, if_neg hno, on_change]

/- ===== Parse-cache lemmas ===== -/

theorem get_or_parse_cache_entry (fe : FrontEnd) (b : Backend) (uri text : String)
    (p : Program) (h : (get_or_parse_program fe b uri text).program = some p) :
    List.lookup uri (get_or_parse_program fe b uri text).backend.parsed_cache
      = some (fe.hash text, p) := by
  simp only [get_or_parse_program] at h ⊢
  cases hc : List.lookup uri b.parsed_cache with
  | none =>
      simp only [hc, parse_and_cache] at h ⊢
      cases hp : (fe.parseWithRecovery text).1 with
      | none => simp [hp] at h
      | some q =>
          simp only [hp] at h ⊢
          simp only [Option.some.injEq] at h
          subst h
          exact assocInsert_lookup _ _ _
  | some entry =>
      obtain ⟨ch, cp⟩ := entry
      simp only [hc] at h ⊢
      by_cases he : ch = fe.hash text
      · simp only [if_pos he] at h ⊢
        simp only [Option.some.injEq] at h
        subst h
        rw [hc, he]
      · simp only [if_neg he, parse_and_cache] at h ⊢
        cases hp : (fe.parseWithRecovery text).1 with
        | none => simp [hp] at h
        | some q =>
            simp only [hp] at h ⊢
            simp only [Option.some.injEq] at h
            subst h
            exact assocInsert_lookup _ _ _

theorem get_or_parse_hit (fe : FrontEnd) (b : Backend) (uri text : String)
    (p : Program) (h : List.lookup uri b.parsed_cache = some (fe.hash text, p)) :
    get_or_parse_program fe b uri text = ⟨some p, b, false⟩ := by
  simp [get_or_parse_program, h]

theorem get_or_parse_documents (fe : FrontEnd) (b : Backend) (uri text : String) :
    (get_or_parse_program fe b uri text).backend.documents = b.documents := by
  simp only [get_or_parse_program, parse_and_cache]
  cases List.lookup uri b.parsed_cache with
  | none =>
      cases (fe.parseWithRecovery text).1 <;> rfl
  | some entry =>
      obtain ⟨ch, cp⟩ := entry
      by_cases he : ch = fe.hash text
      · simp [he]
      · simp only [if_neg he]
        cases (fe.parseWithRecovery text).1 <;> rfl

theorem get_or_parse_program_some (fe : FrontEnd) (b : Backend) (uri text : String)
    (p : Program) (hp : (fe.parseWithRecovery text).1 = some p) :
    ∃ q, (get_or_parse_program fe b uri text).program = some q := by
  simp only [get_or_parse_program, parse_and_cache]
  cases List.lookup uri b.parsed_cache with
  | none => exact ⟨p, by simp [hp]⟩
  | some entry =>
      obtain ⟨ch, cp⟩ := entry
      by_cases he : ch = fe.hash text
      · exact ⟨cp, by simp [he]⟩
      · exact ⟨p, by simp [he, hp]⟩

/- ===== C3: getOrParse is idempotent on identical text ===== -/

/-- C3: if getOrParse(id, T) returns an AST, a second call with the same text
    and no intervening cache change returns the structurally equal AST, with no
    front-end parse invocation, via the fingerprint hit. -/
theorem c3_cache_idempotence (fe : FrontEnd) (b : Backend) (uri text : String)
    (p : Program) (b2 : Backend) (inv : Bool)
    (h : get_or_parse_program fe b uri text = ⟨some p, b2, inv⟩) :
    get_or_parse_program fe b2 uri text = ⟨some p, b2, false⟩ := by
  have hm : List.lookup uri (get_or_parse_program fe b uri text).backend.parsed_cache
      = some (fe.hash text, p) :=
    get_or_parse_cache_entry fe b uri text p (by rw [h])
  rw [h] at hm
  exact get_or_parse_hit fe b2 uri text p hm

/-- C3 witness: a first call parses and caches; the second call returns the
    same AST from the cache without parsing. -/
theorem c3_cache_idempotence_witness :
    get_or_parse_program sampleFrontEnd (Backend.mk [] 10485760 []) "u" "x"
      = ⟨some emptyProgram, Backend.mk [] 10485760 [("u", ("h", emptyProgram))], true⟩ ∧
    get_or_parse_program sampleFrontEnd
        (Backend.mk [] 10485760 [("u", ("h", emptyProgram))]) "u" "x"
      = ⟨some emptyProgram, Backend.mk [] 10485760 [("u", ("h", emptyProgram))], false⟩ :=
  ⟨rfl,
   c3_cache_idempotence sampleFrontEnd (Backend.mk [] 10485760 []) "u" "x"
     emptyProgram (Backend.mk [] 10485760 [("u", ("h", emptyProgram))]) true rfl⟩

/- ===== C5: only completion uses the Parse Cache; hover bypasses it ===== -/

theorem completion_backend_invoked (fe : FrontEnd) (faults : Faults) (b : Backend)
    (uri : String) (pos : Position) (text : String)
    (hdoc : List.lookup uri b.documents = some text) :
    (completion fe faults b uri pos).backend
        = (get_or_parse_program fe b uri text).backend ∧
    (completion fe faults b uri pos).invokedFrontEnd
        = (get_or_parse_program fe b uri text).invokedFrontEnd := by
  simp only [completion, hdoc]
  cases h : (get_or_parse_program fe b uri text).program <;> simp [h]

/-- C5 (amended): completion obtains-or-refreshes the Parse Cache entry —
    after a completion request on a document whose text parses successfully the
    cache holds an entry with the fingerprint of that text, and a repeated
    completion request on unchanged text does not re-invoke the front-end
    parser — but a hover request never touches the Parse Cache: it leaves the
    Backend state unchanged and re-invokes parse_with_recovery each time the
    document exists. -/
theorem c5_parse_cache_usage (fe : FrontEnd) (faults : Faults) (b : Backend)
    (uri : String) (pos : Position) (text : String) (p : Program)
    (errs : List ParseError)
    (hdoc : List.lookup uri b.documents = some text)
    (hparse : fe.parseWithRecovery text = (some p, errs)) :
    (∃ q, List.lookup uri (completion fe faults b uri pos).backend.parsed_cache
        = some (fe.hash text, q)) ∧
    (completion fe faults (completion fe faults b uri pos).backend uri pos).invokedFrontEnd
        = false ∧
    (hover fe faults b uri pos).backend = b ∧
    (hover fe faults b uri pos).invokedFrontEnd = true := by
  have hp1 : (fe.parseWithRecovery text).1 = some p := by rw [hparse]
  obtain ⟨q, hq⟩ := get_or_parse_program_some fe b uri text p hp1
  have hcb := completion_backend_invoked fe faults b uri pos text hdoc
  have hentry := get_or_parse_cache_entry fe b uri text q hq
  refine ⟨⟨q, by rw [hcb.1]; exact hentry⟩, ?_, ?_, ?_⟩
  · have hdoc2 : List.lookup uri (completion fe faults b uri pos).backend.documents
        = some text := by
      rw [hcb.1, get_or_parse_documents]; exact hdoc
    have hm : List.lookup uri (completion fe faults b uri pos).backend.parsed_cache
        = some (fe.hash text, q) := by
      rw [hcb.1]; exact hentry
    have hsecond := completion_backend_invoked fe faults
      (completion fe faults b uri pos).backend uri pos text hdoc2
    rw [hsecond.2,
      get_or_parse_hit fe (completion fe faults b uri pos).backend uri text q hm]
  · simp only [hover, hdoc, hp1]
    cases faults.hover_boundary
    · cases find_function_at_position p (pos.line + 1) (pos.character + 1) <;> rfl
    · rfl
  · simp only [hover, hdoc, hp1]
    cases faults.hover_boundary
    · cases find_function_at_position p (pos.line + 1) (pos.character + 1) <;> rfl
    · rfl

/-- C5 witness for the amended statement. -/
theorem c5_parse_cache_usage_witness :
    (List.lookup "u" (Backend.mk [("u", "t")] 10485760 []).documents = some "t" ∧
     sampleFrontEnd.parseWithRecovery "t" = (some emptyProgram, [])) ∧
    ((∃ q, List.lookup "u"
          (completion sampleFrontEnd noFaults (Backend.mk [("u", "t")] 10485760 [])
            "u" ⟨0, 0⟩).backend.parsed_cache = some (sampleFrontEnd.hash "t", q)) ∧
     (completion sampleFrontEnd noFaults
          (completion sampleFrontEnd noFaults (Backend.mk [("u", "t")] 10485760 [])
            "u" ⟨0, 0⟩).backend "u" ⟨0, 0⟩).invokedFrontEnd = false ∧
     (hover sampleFrontEnd noFaults (Backend.mk [("u", "t")] 10485760 []) "u"
        ⟨0, 0⟩).backend = Backend.mk [("u", "t")] 10485760 [] ∧
     (hover sampleFrontEnd noFaults (Backend.mk [("u", "t")] 10485760 []) "u"
        ⟨0, 0⟩).invokedFrontEnd = true) :=
  ⟨⟨rfl, rfl⟩,
   c5_parse_cache_usage sampleFrontEnd noFaults (Backend.mk [("u", "t")] 10485760 [])
     "u" ⟨0, 0⟩ "t" emptyProgram [] rfl rfl⟩

/-- C5 counterexample: the claim says every hover request obtains-or-refreshes
    the Parse Cache entry and that a repeated request does not re-invoke the
    parser.  Concretely: with the cache already holding the matching
    fingerprint entry for the document, hover still invokes the front-end
    parser; and after a hover request on a parseable document with an empty
    cache, the cache still holds no entry for the identity. -/
theorem c5_hover_bypasses_cache_counterexample :
    (hover sampleFrontEnd noFaults
        (Backend.mk [("u", "t")] 10485760 [("u", ("h", emptyProgram))]) "u"
        ⟨0, 0⟩).invokedFrontEnd = true ∧
    List.lookup "u"
        (hover sampleFrontEnd noFaults (Backend.mk [("u", "t")] 10485760 []) "u"
          ⟨0, 0⟩).backend.parsed_cache = none :=
  ⟨rfl, rfl⟩

/- ===== C7: one Error diagnostic per type error, first line only ===== -/

/-- C7: when type checking a successfully parsed program returns a type error
    and no internal fault occurs, exactly one Error diagnostic is appended
    after the parse-stage diagnostics, and its message is exactly the first
    line of the front-end's full formatted explanation (subsequent lines
    suppressed). -/
theorem c7_single_type_error_diagnostic (fe : FrontEnd) (faults : Faults)
    (text : String) (program : Program) (perrs : List ParseError) (err : TypeError)
    (hparse : fe.parseWithRecovery text = (some program, perrs))
    (htc : fe.typeCheck program (buildContext program) = Except.error err)
    (hf1 : faults.type_check_boundary = false)
    (hf2 : faults.format_error_boundary = false) :
    check_document_internal fe faults text
      = perrs.map parse_error_to_diagnostic
        ++ [type_error_to_diagnostic err
              (fe.formatError text (buildContext program) err)] ∧
    (type_error_to_diagnostic err
        (fe.formatError text (buildContext program) err)).severity
      = some DiagnosticSeverity.error ∧
    (∀ msg : String, (type_error_to_diagnostic err msg).message = firstLine msg) := by
  refine ⟨?_, rfl, fun msg => rfl⟩
  simp [check_document_internal, hparse, hf1, htc, hf2]

/-- C7 witness: a front-end reporting one type error with the two-line
    explanation "first line\nsecond line" yields exactly one added Error
    diagnostic whose message is "first line". -/
theorem c7_single_type_error_diagnostic_witness :
    (sampleFrontEndErr.parseWithRecovery "t" = (some emptyProgram, []) ∧
     sampleFrontEndErr.typeCheck emptyProgram (buildContext emptyProgram)
       = Except.error sampleTypeError ∧
     noFaults.type_check_boundary = false ∧
     noFaults.format_error_boundary = false) ∧
    (check_document_internal sampleFrontEndErr noFaults "t"
       = ([] : List ParseError).map parse_error_to_diagnostic
         ++ [type_error_to_diagnostic sampleTypeError
               (sampleFrontEndErr.formatError "t" (buildContext emptyProgram)
                 sampleTypeError)] ∧
     (type_error_to_diagnostic sampleTypeError
         (sampleFrontEndErr.formatError "t" (buildContext emptyProgram)
           sampleTypeError)).severity = some DiagnosticSeverity.error ∧
     (∀ msg : String,
        (type_error_to_diagnostic sampleTypeError msg).message = firstLine msg)) :=
  ⟨⟨rfl, rfl, rfl, rfl⟩,
   c7_single_type_error_diagnostic sampleFrontEndErr noFaults "t" emptyProgram []
     sampleTypeError rfl rfl rfl rfl⟩

/- ===== C9: hover characterization ===== -/

theorem find_function_loop_eq (line : Nat) (items : List Item) :
    find_function_loop line items
      = ((items.filterMap item_function_opt).find?
            (fun f => decide (line = f.span.start.line ∨ line = f.span.start.line + 1))).map
          (fun f => ⟨format_function_signature f, f.doc⟩) := by
  induction items with
  | nil => rfl
  | cons it rest ih =>
      cases it with
      | classItem c =>
          simpa [find_function_loop, item_function_opt] using ih
      | function f =>
          simp only [find_function_loop, item_function_opt, List.filterMap_cons,
            List.find?]
          by_cases h : line = f.span.start.line ∨ line = f.span.start.line + 1
          · simp [h]
          · simp [h, ih]

/-- C9: hover(AST, line, column) returns content exactly for the first
    top-level function (in program order, classes skipped) whose recorded
    start line equals the queried line or the line immediately after it; the
    returned signature is the attribute prefixes, then fn name(params), then
    the optional return type, with the doc string carried alongside; no match
    yields no content.  In particular, hovering at the definition line of
    `fn add(a: int, b: int) -> int:` returns that very signature. -/
theorem c9_hover_content :
    (∀ (program : Program) (line column : Nat),
        find_function_at_position program line column
          = ((program.items.filterMap item_function_opt).find?
                (fun f => decide (line = f.span.start.line ∨
                  line = f.span.start.line + 1))).map
              (fun f => ⟨format_function_signature f, f.doc⟩)) ∧
    (∀ func : Function,
        format_function_signature func
          = String.join (func.attrs.map (fun attr =>
              "@" ++ attr.name
                ++ (if attr.args.isEmpty then ""
                    else "(" ++ toString attr.args.length ++ ")")
                ++ " "))
            ++ "fn " ++ func.name ++ "("
            ++ String.intercalate ", "
                (func.params.map (fun p => p.name ++ ": " ++ format_type p.ty))
            ++ ")"
            ++ (match func.return_type with
                | some retTy => " -> " ++ format_type retTy
                | none => "")) ∧
    find_function_at_position addProgram 1 1
      = some ⟨"fn add(a: int, b: int) -> int", none⟩ :=
  ⟨fun program line _column => find_function_loop_eq line program.items,
   fun _ => rfl,
   rfl⟩

/- ===== C6: member access suppresses keyword items ===== -/

theorem mem_var_completion_items {x : CompletionItem} {vs names : List String}
    (h : x ∈ var_completion_items vs names) : is_keyword_completion x = false := by
  simp only [var_completion_items, List.mem_map] at h
  obtain ⟨v, _, rfl⟩ := h
  rfl

theorem methods_loop_keyword_free (ms : List Function) (st : UserFoldState)
    (cn : String) (h : ∀ x ∈ st.items, is_keyword_completion x = false) :
    ∀ x ∈ (methods_loop ms st cn).items, is_keyword_completion x = false := by
  induction ms generalizing st with
  | nil => simpa [methods_loop] using h
  | cons m rest ih =>
      simp only [methods_loop]
      apply ih
      intro x hx
      rcases List.mem_append.mp hx with hx | hx
      · exact h x hx
      · simp only [List.mem_singleton] at hx
        subst hx
        rfl

theorem user_items_loop_keyword_free (its : List Item) (st : UserFoldState)
    (h : ∀ x ∈ st.items, is_keyword_completion x = false) :
    ∀ x ∈ (user_items_loop its st).items, is_keyword_completion x = false := by
  induction its generalizing st with
  | nil => simpa [user_items_loop] using h
  | cons it rest ih =>
      cases it with
      | function f =>
          simp only [user_items_loop]
          apply ih
          intro x hx
          rcases List.mem_append.mp hx with hx | hx
          · exact h x hx
          · simp only [List.mem_singleton] at hx
            subst hx
            rfl
      | classItem cl =>
          simp only [user_items_loop]
          apply ih
          apply methods_loop_keyword_free
          intro x hx
          rcases List.mem_append.mp hx with hx | hx
          · exact h x hx
          · simp only [List.mem_singleton] at hx
            subst hx
            rfl

theorem stdlib_loop_keyword_free (funcs : List StdlibFunction)
    (names : List String) (items : List CompletionItem)
    (h : ∀ x ∈ items, is_keyword_completion x = false) :
    ∀ x ∈ stdlib_loop funcs names items, is_keyword_completion x = false := by
  induction funcs generalizing items with
  | nil => simpa [stdlib_loop] using h
  | cons f rest ih =>
      simp only [stdlib_loop]
      by_cases hm : f.name ∈ names
      · simp only [if_pos hm]
        exact ih items h
      · simp only [if_neg hm]
        apply ih
        intro x hx
        rcases List.mem_append.mp hx with hx | hx
        · exact h x hx
        · simp only [List.mem_singleton] at hx
          subst hx
          rfl

/-- C6: for a parsed program and a cursor whose line lies within the
    document's lines, if the text of that line up to the cursor column,
    trimmed of trailing whitespace, ends with `.`, the completion list
    contains zero keyword items. -/
theorem c6_member_access_no_keywords (fe : FrontEnd) (program : Program)
    (text : String) (pos : Position) (current_line : String)
    (hline : line_at text pos.line = some current_line)
    (hdot : ends_with_dot (rust_trim_end (text_before_cursor current_line pos.character))
      = true) :
    (get_completions_internal fe program text pos).countP is_keyword_completion
      = 0 := by
  rw [List.countP_eq_zero]
  intro x hx
  simp only [get_completions_internal, hline, hdot, if_true] at hx
  have hfree : ∀ y ∈ stdlib_loop (fe.stdlib.take 100)
      (user_items_loop program.items ⟨[], [], 0⟩).function_names
      ((user_items_loop program.items ⟨[], [], 0⟩).items
        ++ (match extract_variables_in_scope program (pos.line + 1)
              (pos.character + 1) with
            | some vars => var_completion_items vars
                (user_items_loop program.items ⟨[], [], 0⟩).function_names
            | none => [])),
      is_keyword_completion y = false := by
    apply stdlib_loop_keyword_free
    intro y hy
    rcases List.mem_append.mp hy with hy | hy
    · exact user_items_loop_keyword_free program.items ⟨[], [], 0⟩
        (by intro z hz; simp at hz) y hy
    · rcases hv : extract_variables_in_scope program (pos.line + 1)
          (pos.character + 1) with _ | vars
      · rw [hv] at hy; simp at hy
      · rw [hv] at hy; exact mem_var_completion_items hy
  simp only [Bool.not_eq_true]
  exact hfree x hx

/-- C6 witness: cursor text "foo." at column 4 yields zero keyword items. -/
theorem c6_member_access_no_keywords_witness :
    (line_at "foo." 0 = some "foo." ∧
     ends_with_dot (rust_trim_end (text_before_cursor "foo." 4)) = true) ∧
    (get_completions_internal sampleFrontEndStd emptyProgram "foo."
        ⟨0, 4⟩).countP is_keyword_completion = 0 :=
  ⟨⟨rfl, rfl⟩,
   c6_member_access_no_keywords sampleFrontEndStd emptyProgram "foo." ⟨0, 4⟩
     "foo." rfl rfl⟩

/- ===== C8: performance cutoffs of the completion engine ===== -/

theorem fn_method_details_append (a b : List CompletionItem) :
    fn_method_details (a ++ b) = fn_method_details a ++ fn_method_details b :=
  List.filterMap_append a b _

theorem detail_spec_from_append (xs ys : List Function) (c : Nat) :
    detail_spec_from c (xs ++ ys)
      = detail_spec_from c xs ++ detail_spec_from (count_after c xs.length) ys := by
  induction xs generalizing c with
  | nil => simp [detail_spec_from, count_after]
  | cons f rest ih =>
      simp only [List.cons_append, detail_spec_from, List.length_cons, List.append_eq]
      rw [ih (next_detailed_count c)]
      rfl

theorem count_after_add (a b c : Nat) :
    count_after c (a + b) = count_after (count_after c a) b := by
  induction a generalizing c with
  | zero => rw [Nat.zero_add]; rfl
  | succ a ih =>
      rw [Nat.succ_add]
      show count_after (next_detailed_count c) (a + b)
        = count_after (count_after (next_detailed_count c) a) b
      exact ih (next_detailed_count c)

theorem methods_loop_spec (ms : List Function) (st : UserFoldState) (cn : String) :
    fn_method_details (methods_loop ms st cn).items
      = fn_method_details st.items ++ detail_spec_from st.detailed_count ms ∧
    (methods_loop ms st cn).detailed_count = count_after st.detailed_count ms.length := by
  induction ms generalizing st with
  | nil => simp [methods_loop, detail_spec_from, count_after]
  | cons m rest ih =>
      simp only [methods_loop]
      obtain ⟨h1, h2⟩ := ih ⟨st.items ++
        [⟨cn ++ "." ++ m.name, some CompletionItemKind.method,
          some (detail_for st.detailed_count m), m.doc⟩],
        setInsert st.function_names m.name, next_detailed_count st.detailed_count⟩
      refine ⟨?_, ?_⟩
      · rw [h1]
        simp only [fn_method_details_append, detail_spec_from, List.length_cons]
        rw [show fn_method_details
              [⟨cn ++ "." ++ m.name, some CompletionItemKind.method,
                some (detail_for st.detailed_count m), m.doc⟩]
            = [detail_for st.detailed_count m] from rfl]
        simp [List.append_assoc]
      · rw [h2]
        simp [count_after, List.length_cons]

theorem user_items_loop_spec (its : List Item) (st : UserFoldState) :
    fn_method_details (user_items_loop its st).items
      = fn_method_details st.items
        ++ detail_spec_from st.detailed_count (fns_and_methods its) ∧
    (user_items_loop its st).detailed_count
      = count_after st.detailed_count (fns_and_methods its).length := by
  induction its generalizing st with
  | nil => simp [user_items_loop, fns_and_methods, detail_spec_from, count_after]
  | cons it rest ih =>
      cases it with
      | function f =>
          simp only [user_items_loop]
          obtain ⟨h1, h2⟩ := ih ⟨st.items ++
            [⟨f.name, some CompletionItemKind.function,
              some (detail_for st.detailed_count f), f.doc⟩],
            setInsert st.function_names f.name, next_detailed_count st.detailed_count⟩
          refine ⟨?_, ?_⟩
          · rw [h1]
            simp only [fn_method_details_append, fns_and_methods, detail_spec_from]
            rw [show fn_method_details
                  [⟨f.name, some CompletionItemKind.function,
                    some (detail_for st.detailed_count f), f.doc⟩]
                = [detail_for st.detailed_count f] from rfl]
            simp [List.append_assoc]
          · rw [h2]
            simp [fns_and_methods, count_after, List.length_cons]
      | classItem cl =>
          simp only [user_items_loop]
          obtain ⟨hm1, hm2⟩ := methods_loop_spec cl.methods
            ⟨st.items ++ [⟨cl.name, some CompletionItemKind.classItem,
              some ("class " ++ cl.name), cl.doc⟩],
             st.function_names, st.detailed_count⟩ cl.name
          obtain ⟨h1, h2⟩ := ih (methods_loop cl.methods
            ⟨st.items ++ [⟨cl.name, some CompletionItemKind.classItem,
              some ("class " ++ cl.name), cl.doc⟩],
             st.function_names, st.detailed_count⟩ cl.name)
          refine ⟨?_, ?_⟩
          · rw [h1, hm1, hm2]
            simp only [fn_method_details_append, fns_and_methods]
            rw [show fn_method_details
                  [⟨cl.name, some CompletionItemKind.classItem,
                    some ("class " ++ cl.name), cl.doc⟩] = [] from rfl]
            rw [detail_spec_from_append]
            simp [List.append_assoc]
          · rw [h2, hm2]
            simp only [fns_and_methods, List.length_append]
            rw [count_after_add]

theorem detail_spec_from_get (fs : List Function) :
    ∀ (c n : Nat) (f : Function), fs.get? n = some f →
      (detail_spec_from c fs).get? n
        = some (if c + n < 50 then format_function_signature f
                else "fn " ++ f.name) := by
  induction fs with
  | nil => intro c n f h; simp at h
  | cons g rest ih =>
      intro c n f h
      cases n with
      | zero =>
          simp only [List.get?] at h
          injection h with h
          subst h
          simp [detail_spec_from, detail_for]
      | succ n =>
          simp only [List.get?] at h
          have := ih (next_detailed_count c) n f h
          simp only [detail_spec_from, List.get?]
          rw [this]
          congr 1
          refine if_congr ?_ rfl rfl
          unfold next_detailed_count
          split <;> omega

theorem stdlib_loop_length (funcs : List StdlibFunction) (names : List String)
    (items : List CompletionItem) :
    (stdlib_loop funcs names items).length ≤ items.length + funcs.length := by
  induction funcs generalizing items with
  | nil => simp [stdlib_loop]
  | cons f rest ih =>
      simp only [stdlib_loop, List.length_cons]
      by_cases hm : f.name ∈ names
      · simp only [if_pos hm]
        have := ih items
        omega
      · simp only [if_neg hm]
        have := ih (items ++ [mk_stdlib_item f items.length])
        simp only [List.length_append, List.length_singleton] at this
        omega

theorem stdlib_loop_get_lt (funcs : List StdlibFunction) (names : List String)
    (items : List CompletionItem) (i : Nat) (hi : i < items.length) :
    (stdlib_loop funcs names items).get? i = items.get? i := by
  induction funcs generalizing items with
  | nil => rfl
  | cons f rest ih =>
      simp only [stdlib_loop]
      by_cases hm : f.name ∈ names
      · simp only [if_pos hm]
        exact ih items hi
      · simp only [if_neg hm]
        rw [ih (items ++ [mk_stdlib_item f items.length])
              (by simp only [List.length_append, List.length_singleton]; omega)]
        exact List.get?_append hi

theorem stdlib_loop_get_new (funcs : List StdlibFunction) (names : List String) :
    ∀ (items : List CompletionItem) (i : Nat) (x : CompletionItem),
      items.length ≤ i → (stdlib_loop funcs names items).get? i = some x →
      ∃ f, f ∈ funcs ∧ x = mk_stdlib_item f i := by
  induction funcs with
  | nil =>
      intro items i x hle h
      rw [show stdlib_loop [] names items = items from rfl] at h
      rw [List.get?_eq_none.mpr hle] at h
      exact absurd h (by simp)
  | cons f rest ih =>
      intro items i x hle h
      simp only [stdlib_loop] at h
      by_cases hm : f.name ∈ names
      · rw [if_pos hm] at h
        obtain ⟨g, hg, hx⟩ := ih items i x hle h
        exact ⟨g, List.mem_cons_of_mem f hg, hx⟩
      · rw [if_neg hm] at h
        by_cases hi : i < (items ++ [mk_stdlib_item f items.length]).length
        · have hieq : i = items.length := by
            simp only [List.length_append, List.length_singleton] at hi
            omega
          rw [stdlib_loop_get_lt rest names _ i hi] at h
          rw [List.get?_append_right (by omega)] at h
          subst hieq
          simp only [Nat.sub_self, List.get?] at h
          injection h with h
          exact ⟨f, List.mem_cons_self f rest, h.symm⟩
        · obtain ⟨g, hg, hx⟩ := ih (items ++ [mk_stdlib_item f items.length]) i x
            (by simp only [List.length_append, List.length_singleton] at hi ⊢; omega) h
          exact ⟨g, List.mem_cons_of_mem f hg, hx⟩

/-- C8: (a) during one completion generation the n-th user function/method
    encountered is given the fully formatted signature as its detail exactly
    when n < 50, and the bare `fn name` afterwards; (b) the built-in stage
    emits at most 100 catalog entries regardless of catalog size; (c) a
    built-in entry pushed at accumulated position i carries the full
    `name(p: t, ...) -> ret` signature exactly while i < 200, and `name()`
    afterwards. -/
theorem c8_completion_caps :
    (∀ (items : List Item) (n : Nat) (f : Function),
        (fns_and_methods items).get? n = some f →
        (fn_method_details (user_items_loop items ⟨[], [], 0⟩).items).get? n
          = some (if n < 50 then format_function_signature f
                  else "fn " ++ f.name)) ∧
    (∀ (fe : FrontEnd) (names : List String) (items : List CompletionItem),
        (stdlib_loop (fe.stdlib.take 100) names items).length
          ≤ items.length + 100) ∧
    (∀ (funcs : List StdlibFunction) (names : List String)
        (items : List CompletionItem) (i : Nat) (x : CompletionItem),
        items.length ≤ i → (stdlib_loop funcs names items).get? i = some x →
        ∃ f, f ∈ funcs ∧
          x.detail = some (if i < 200 then format_stdlib_signature f
                           else f.name ++ "()")) := by
  refine ⟨?_, ?_, ?_⟩
  · intro items n f h
    rw [(user_items_loop_spec items ⟨[], [], 0⟩).1]
    rw [show fn_method_details (UserFoldState.mk [] [] 0).items = [] from rfl]
    rw [List.nil_append]
    have := detail_spec_from_get (fns_and_methods items) 0 n f h
    rw [Nat.zero_add] at this
    exact this
  · intro fe names items
    have h1 := stdlib_loop_length (fe.stdlib.take 100) names items
    have h2 : (fe.stdlib.take 100).length ≤ 100 := List.length_take_le 100 fe.stdlib
    omega
  · intro funcs names items i x hle h
    obtain ⟨f, hf, hx⟩ := stdlib_loop_get_new funcs names items i x hle h
    exact ⟨f, hf, by rw [hx]; rfl⟩

/-- C8 witness: in a program with 51 identical functions the 51st
    (index 50) gets the bare detail; the stdlib stage of a one-entry catalog
    emits at most 100 items; the entry pushed at accumulated position 0 gets
    the fully formatted signature. -/
theorem c8_completion_caps_witness :
    ((fns_and_methods manyFns).get? 50 = some sampleFn ∧
     ([] : List CompletionItem).length ≤ 0 ∧
     (stdlib_loop [sampleStdlibPrint] [] []).get? 0
       = some (mk_stdlib_item sampleStdlibPrint 0)) ∧
    ((fn_method_details (user_items_loop manyFns ⟨[], [], 0⟩).items).get? 50
       = some (if 50 < 50 then format_function_signature sampleFn
               else "fn " ++ sampleFn.name) ∧
     (stdlib_loop (sampleFrontEndStd.stdlib.take 100) [] []).length
       ≤ ([] : List CompletionItem).length + 100 ∧
     ∃ f, f ∈ [sampleStdlibPrint] ∧
       (mk_stdlib_item sampleStdlibPrint 0).detail
         = some (if 0 < 200 then format_stdlib_signature f
                 else f.name ++ "()")) :=
  ⟨⟨rfl, Nat.le_refl 0, rfl⟩,
   c8_completion_caps.1 manyFns 50 sampleFn rfl,
   c8_completion_caps.2.1 sampleFrontEndStd [] [],
   c8_completion_caps.2.2 [sampleStdlibPrint] [] [] 0
     (mk_stdlib_item sampleStdlibPrint 0) (Nat.le_refl 0) rfl⟩

/- ===== C1: completion is total, non-empty, with keyword+print fallback ===== -/

theorem setInsert_length (s : List String) (x : String) :
    (setInsert s x).length ≤ s.length + 1 := by
  unfold setInsert
  split
  · omega
  · simp

theorem methods_loop_names_le (ms : List Function) (st : UserFoldState) (cn : String)
    (h : st.function_names.length ≤ st.items.length) :
    (methods_loop ms st cn).function_names.length
      ≤ (methods_loop ms st cn).items.length := by
  induction ms generalizing st with
  | nil => simpa [methods_loop] using h
  | cons m rest ih =>
      simp only [methods_loop]
      apply ih
      simp only [List.length_append, List.length_singleton]
      have := setInsert_length st.function_names m.name
      omega

theorem user_items_loop_names_le (its : List Item) (st : UserFoldState)
    (h : st.function_names.length ≤ st.items.length) :
    (user_items_loop its st).function_names.length
      ≤ (user_items_loop its st).items.length := by
  induction its generalizing st with
  | nil => simpa [user_items_loop] using h
  | cons it rest ih =>
      cases it with
      | function f =>
          simp only [user_items_loop]
          apply ih
          simp only [List.length_append, List.length_singleton]
          have := setInsert_length st.function_names f.name
          omega
      | classItem cl =>
          simp only [user_items_loop]
          apply ih
          apply methods_loop_names_le
          simp only [List.length_append, List.length_singleton]
          omega

theorem stdlib_loop_eq_nil (funcs : List StdlibFunction) (names : List String)
    (items : List CompletionItem) (h : stdlib_loop funcs names items = []) :
    items = [] ∧ ∀ f ∈ funcs, f.name ∈ names := by
  induction funcs generalizing items with
  | nil => exact ⟨h, by simp⟩
  | cons f rest ih =>
      simp only [stdlib_loop] at h
      by_cases hm : f.name ∈ names
      · rw [if_pos hm] at h
        obtain ⟨h1, h2⟩ := ih items h
        refine ⟨h1, ?_⟩
        intro g hg
        rcases List.mem_cons.mp hg with hg | hg
        · subst hg; exact hm
        · exact h2 g hg
      · rw [if_neg hm] at h
        obtain ⟨h1, _⟩ := ih _ h
        exact absurd h1 (by simp)

theorem get_basic_completions_ne_nil : get_basic_completions ≠ [] :=
  List.cons_ne_nil _ _

theorem get_completions_internal_ne_nil (fe : FrontEnd) (program : Program)
    (text : String) (pos : Position) (hstd : fe.stdlib ≠ []) :
    get_completions_internal fe program text pos ≠ [] := by
  simp only [get_completions_internal]
  split
  · exact get_basic_completions_ne_nil
  · split
    · intro h
      obtain ⟨hitems, hall⟩ := stdlib_loop_eq_nil _ _ _ h
      have hstitems : (user_items_loop program.items ⟨[], [], 0⟩).items = [] :=
        (List.append_eq_nil.mp hitems).1
      cases hs : fe.stdlib with
      | nil => exact hstd hs
      | cons g grest =>
          have h100 : (100 : Nat) = 99 + 1 := rfl
          have hgmem : g ∈ fe.stdlib.take 100 := by
            rw [hs, h100, List.take_succ_cons]
            exact List.mem_cons_self g _
          have hgn := hall g hgmem
          have hne : (user_items_loop program.items ⟨[], [], 0⟩).function_names
              ≠ [] := List.ne_nil_of_mem hgn
          have hlen := user_items_loop_names_le program.items ⟨[], [], 0⟩
            (by simp)
          rw [hstitems] at hlen
          simp only [List.length_nil, Nat.le_zero] at hlen
          exact hne (List.length_eq_zero.mp hlen)
    · intro h
      have hlen := congrArg List.length h
      simp only [List.length_append, List.length_nil] at hlen
      have hk : get_keyword_completions.length = 10 := rfl
      omega

/-- C1: with the document present (and its cache entry invalidated, as the
    change handler guarantees), completion always answers Ok with a non-empty
    list; if the text fails to parse or an internal fault fires at either
    completion boundary, the answer is exactly the fallback list of all
    keywords plus the built-in print item. -/
theorem c1_completion_never_empty (fe : FrontEnd) (faults : Faults) (b : Backend)
    (uri : String) (pos : Position) (text : String)
    (hdoc : List.lookup uri b.documents = some text)
    (hnc : List.lookup uri b.parsed_cache = none)
    (hstd : fe.stdlib ≠ []) :
    ∃ items b2 inv,
      completion fe faults b uri pos = ⟨Except.ok items, b2, inv⟩ ∧
      items ≠ [] ∧
      ((fe.parseWithRecovery text).1 = none ∨ faults.completion_boundary = true ∨
          faults.get_completions_boundary = true →
        items = get_keyword_completions ++ [print_completion_item]) := by
  have hg : get_or_parse_program fe b uri text
      = parse_and_cache fe b uri text (fe.hash text) := by
    simp [get_or_parse_program, hnc]
  cases hp : (fe.parseWithRecovery text).1 with
  | none =>
      have hpc : parse_and_cache fe b uri text (fe.hash text) = ⟨none, b, true⟩ := by
        simp [parse_and_cache, hp]
      refine ⟨get_basic_completions, b, true, ?_, get_basic_completions_ne_nil,
        fun _ => rfl⟩
      simp [completion, hdoc, hg, hpc]
  | some p =>
      have hpc : (parse_and_cache fe b uri text (fe.hash text)).program = some p := by
        simp [parse_and_cache, hp]
      have hcompl : completion fe faults b uri pos
          = ⟨Except.ok (if faults.completion_boundary then get_basic_completions
                        else get_completions fe faults p text pos),
             (parse_and_cache fe b uri text (fe.hash text)).backend,
             (parse_and_cache fe b uri text (fe.hash text)).invokedFrontEnd⟩ := by
        simp only [completion, hdoc, hg, hpc]
      cases hb1 : faults.completion_boundary with
      | true =>
          refine ⟨get_basic_completions,
            (parse_and_cache fe b uri text (fe.hash text)).backend,
            (parse_and_cache fe b uri text (fe.hash text)).invokedFrontEnd,
            ?_, get_basic_completions_ne_nil, fun _ => rfl⟩
          rw [hcompl, hb1, if_pos rfl]
      | false =>
          cases hb2 : faults.get_completions_boundary with
          | true =>
              refine ⟨get_basic_completions,
                (parse_and_cache fe b uri text (fe.hash text)).backend,
                (parse_and_cache fe b uri text (fe.hash text)).invokedFrontEnd,
                ?_, get_basic_completions_ne_nil, fun _ => rfl⟩
              rw [hcompl, hb1, if_neg Bool.false_ne_true]
              simp [get_completions, hb2]
          | false =>
              refine ⟨get_completions_internal fe p text pos,
                (parse_and_cache fe b uri text (fe.hash text)).backend,
                (parse_and_cache fe b uri text (fe.hash text)).invokedFrontEnd,
                ?_, get_completions_internal_ne_nil fe p text pos hstd, ?_⟩
              · rw [hcompl, hb1, if_neg Bool.false_ne_true]
                simp [get_completions, hb2]
              · intro h
                rcases h with h | h | h
                · exact absurd h (by simp)
                · exact absurd h (by simp)
                · exact absurd h (by simp)

/-- C1 witness: a freshly changed document parses, and completion answers Ok
    with a non-empty list. -/
theorem c1_completion_never_empty_witness :
    (List.lookup "u" (Backend.mk [("u", "t")] 10485760 []).documents = some "t" ∧
     List.lookup "u" (Backend.mk [("u", "t")] 10485760 []).parsed_cache = none ∧
     sampleFrontEndStd.stdlib ≠ []) ∧
    (∃ items b2 inv,
      completion sampleFrontEndStd noFaults (Backend.mk [("u", "t")] 10485760 [])
          "u" ⟨0, 0⟩ = ⟨Except.ok items, b2, inv⟩ ∧
      items ≠ [] ∧
      ((sampleFrontEndStd.parseWithRecovery "t").1 = none ∨
          noFaults.completion_boundary = true ∨
          noFaults.get_completions_boundary = true →
        items = get_keyword_completions ++ [print_completion_item])) :=
  ⟨⟨rfl, rfl, List.cons_ne_nil _ _⟩,
   c1_completion_never_empty sampleFrontEndStd noFaults
     (Backend.mk [("u", "t")] 10485760 []) "u" ⟨0, 0⟩ "t" rfl rfl
     (List.cons_ne_nil _ _)⟩

end PainLsp
